import Mathlib

/-!
Verification of the MOBI/PalmDOC decode pipeline (`src/MobiParse.cpp`).

Bytes are modelled as `Nat` values (every byte the C code reads comes from a
`uint8_t *`, so concrete inputs use values `< 256`).  `size_t` arithmetic is
modelled as `Nat` with explicit wrap-around modulo `2^64` (`szSub64`), and the
signed 16/32-bit header fields as `Int` with explicit reduction (`asInt16`,
`asInt32`).  Reads of memory outside a buffer (which the C code performs on
some malformed inputs after a failed `assert`) are modelled with `List.getD`,
i.e. the unspecified byte is taken to be `0`.
-/

/-- `a - b` computed in `size_t` (64-bit wrap-around) arithmetic. -/
def szSub64 (a b : Nat) : Nat := (((a : Int) - (b : Int)) % (2 ^ 64)).toNat

/-- Reduce a natural number to the value of an `int32_t` holding its low 32 bits. -/
def asInt32 (n : Nat) : Int :=
  if n % 4294967296 < 2147483648 then ((n % 4294967296 : Nat) : Int)
  else ((n % 4294967296 : Nat) : Int) - 4294967296

/-- Interpret a 16-bit value as a signed `int16_t`. -/
def asInt16 (n : Nat) : Int :=
  if n % 65536 < 32768 then ((n % 65536 : Nat) : Int)
  else ((n % 65536 : Nat) : Int) - 65536

/-- Big-endian 16-bit read at `off`, interpreted as `int16_t` (the result of
`SwapI16` on a field loaded from the record bytes). -/
def readI16BE (d : List Nat) (off : Nat) : Int :=
  asInt16 (d.getD off 0 * 256 + d.getD (off + 1) 0)

/-- Big-endian 32-bit read at `off`, interpreted as `int32_t` (`SwapI32`). -/
def readI32BE (d : List Nat) (off : Nat) : Int :=
  asInt32 (d.getD off 0 * 16777216 + d.getD (off + 1) 0 * 65536 +
    d.getD (off + 2) 0 * 256 + d.getD (off + 3) 0)

/-- Big-endian 32-bit read at `off`, interpreted as `uint32_t` (`SwapU32`). -/
def readU32BE (d : List Nat) (off : Nat) : Nat :=
  (d.getD off 0 * 16777216 + d.getD (off + 1) 0 * 65536 +
    d.getD (off + 2) 0 * 256 + d.getD (off + 3) 0) % 4294967296

/-!  ## PalmDoc decompressor (`PalmdocUncompress`)

The output buffer is modelled as a growing list: appending past `dstLen`
models the C code writing past `dstEnd`.  The returned length `dst - dstOrig`
is the length of the list.  The back-reference copy advances `dstBack` and
`dst` together, so at each of the `n` single-byte copy steps the source index
is `current output length - back`; a source index before the start of the
buffer (the case the C code only `assert`s about) reads the unspecified
byte `0`. -/

/-- Copy `n` bytes one at a time, forward, each read at distance `back`
behind the current end of the output (so overlapping ranges re-read bytes
written by earlier steps of the same copy). -/
def copyFwd (out : List Nat) (back : Nat) : Nat → List Nat
  | 0 => out
  | n + 1 => copyFwd (out ++ [out.getD (out.length - back) 0]) back n

/-- The `while (src < srcEnd)` loop of `PalmdocUncompress`.  `fuel` is an
upper bound on the number of iterations (each iteration consumes at least one
input byte, so `src.length` suffices); the `fuel = 0` arm is unreachable from
`palmdocUncompress`. -/
def palmLoop : Nat → List Nat → List Nat → Nat → Option (List Nat)
  | _, [], out, _ => some out
  | 0, _ :: _, _, _ => none
  | fuel + 1, c :: rest, out, dstLen =>
    let dstLeft := szSub64 dstLen out.length
    if dstLeft = 0 then none
    else if 1 ≤ c ∧ c ≤ 8 then
      if dstLeft < c then none
      else palmLoop fuel (rest.drop c) (out ++ rest.take c) dstLen
    else if c < 128 then
      palmLoop fuel rest (out ++ [c]) dstLen
    else if 192 ≤ c then
      if dstLeft < 2 then none
      else palmLoop fuel rest (out ++ [32, c ^^^ 128]) dstLen
    else
      match rest with
      | [] => some out
      | b :: rest2 =>
        let v := (c <<< 8) ||| b
        let back := (v >>> 3) &&& 2047
        let n := (v &&& 7) + 3
        palmLoop fuel rest2 (copyFwd out back n) dstLen

/-- `PalmdocUncompress(src, srcLen, dst, dstLen)`: `none` models the `-1`
error return; `some out` models returning `out.length = dst - dstOrig`. -/
def palmdocUncompress (src : List Nat) (dstLen : Nat) : Option (List Nat) :=
  palmLoop src.length src [] dstLen

/-!  ## Trailing-data stripping (`ExtraDataSize`) -/

/-- Decode the base-128 length value from the 4 bytes `recData[newLen-4 ..
newLen-1]` (the inner `j` loop of `ExtraDataSize`).  `n` stays below `2^28`,
so the `uint32_t` accumulator never wraps. -/
def trailerLen (recData : List Nat) (newLen : Nat) : Nat :=
  (List.range 4).foldl
    (fun n j =>
      let v := recData.getD (newLen - 4 + j) 0
      let n2 := if v &&& 128 ≠ 0 then 0 else n
      (n2 <<< 7) ||| (v &&& 127))
    0

/-- The trailer loop of `ExtraDataSize`: shrink `newLen` once per trailer.
The subtraction is `size_t` arithmetic, so a decoded length larger than
`newLen` wraps around instead of failing (the C code only `assert`s). -/
def stripTrailers (recData : List Nat) : Nat → Nat → Nat
  | newLen, 0 => newLen
  | newLen, t + 1 => stripTrailers recData (szSub64 newLen (trailerLen recData newLen)) t

/-- `ExtraDataSize(recData, recLen, trailersCount, multibyte)`. -/
def extraDataSize (recData : List Nat) (recLen trailersCount : Nat) (multibyte : Bool) : Nat :=
  let newLen := stripTrailers recData recLen trailersCount
  let newLen2 :=
    if multibyte then
      if 0 < newLen then szSub64 newLen ((recData.getD (newLen - 1) 0 &&& 3) + 1) else newLen
    else newLen
  szSub64 recLen newLen2

/-!  ## Container reader (`ParseHeader` record table, `GetRecordSize`, `ReadRecord`) -/

/-- The offset validation loop of `ParseHeader`: each offset must be `≤` its
successor (the loop compares all `numRecords` consecutive pairs of the
`numRecords + 1` entries, sentinel included). -/
def validOffsets : List Int → Bool
  | [] => true
  | [_] => true
  | a :: b :: rest => decide (a ≤ b) && validOffsets (b :: rest)

/-- The record-table part of `MobiParse::ParseHeader`: requires
`numRecords ≥ 1`, reads `numRecords` offsets (a short read fails), appends
the sentinel entry `recHeaders[numRecords].offset = fileSize` — an `int32_t`
assignment, hence the `asInt32` reduction — and validates monotonicity. -/
def openEnvelope (numRecords : Int) (rawOffsets : List Int) (fileSize : Nat) :
    Option (List Int) :=
  if numRecords < 1 then none
  else if rawOffsets.length ≠ numRecords.toNat then none
  else if validOffsets (rawOffsets ++ [asInt32 fileSize]) then
    some (rawOffsets ++ [asInt32 fileSize])
  else none

/-- The byte source plus the parsed offset table.  `junk` is the unspecified
value that an out-of-bounds read of the offset table yields: `ReadRecord`
accesses `recHeaders[recNo]` and `recHeaders[recNo + 1]` without any bound
check, so for `recNo ≥ recordCount` it reads whatever lies past the table. -/
structure PdbFile where
  source : List Nat
  offsets : List Int
  junk : Int
deriving DecidableEq

/-- `MobiParse::GetRecordSize`: `recHeaders[recNo+1].offset - recHeaders[recNo].offset`. -/
def getRecordSize (pdb : PdbFile) (recNo : Nat) : Int :=
  pdb.offsets.getD (recNo + 1) pdb.junk - pdb.offsets.getD recNo pdb.junk

/-- `MobiParse::ReadRecord`: seek to `offset[recNo]` and read exactly
`getRecordSize` bytes; `ReadFile` reports `bytesRead = toRead` exactly when
the requested range lies inside the file, and the C code fails (returns
`NULL`) otherwise.  A negative offset or size sign-extends to a file position
or length no real file satisfies, hence also fails. -/
def readRecord (pdb : PdbFile) (recNo : Nat) : Option (List Nat) :=
  let off := pdb.offsets.getD recNo pdb.junk
  let toRead := getRecordSize pdb recNo
  if 0 ≤ off ∧ 0 ≤ toRead ∧ off.toNat + toRead.toNat ≤ pdb.source.length then
    some ((pdb.source.drop off.toNat).take toRead.toNat)
  else none

/-!  ## Huffman/CDIC decompressor (`HuffDicDecompressor`) -/

/-- The validation loop of `UnpackCacheData` over the 256 big-endian cache
entries at `cacheOff`: a zero code length, or a non-terminal entry with code
length `≤ 8`, makes it return `false` immediately.  The `dict1` table it
fills in is not modelled: nothing in the reachable code reads it (the decode
walk is unimplemented). -/
def unpackFrom (data : List Nat) (cacheOff : Nat) : Nat → Nat → Bool
  | _, 0 => true
  | i, remaining + 1 =>
    let v := readU32BE data (cacheOff + 4 * i)
    let codeLen := v &&& 31
    if codeLen = 0 then false
    else if codeLen ≤ 8 ∧ v &&& 128 = 0 then false
    else unpackFrom data cacheOff (i + 1) remaining

/-- `HuffDicDecompressor::UnpackCacheData` (return value only). -/
def unpackCacheData (data : List Nat) (cacheOff : Nat) : Bool :=
  unpackFrom data cacheOff 0 256

/-- `HuffDicDecompressor::SetHuffData`: validates the length, the `HUFF` tag
(bytes `72 85 70 70`), `hdrLen = 24`, `baseTableOffset = cacheOffset + 1024`
and `baseTableOffset < huffDataLen`; then calls `UnpackCacheData` but
discards its result (`let _u := …`, exactly as the source ignores the call's
return value) and reports success. -/
def setHuffData (data : List Nat) : Bool :=
  if data.length < 24 then false
  else if ¬(data.getD 0 0 = 72 ∧ data.getD 1 0 = 85 ∧ data.getD 2 0 = 70 ∧
      data.getD 3 0 = 70) then false
  else if readU32BE data 4 ≠ 24 then false
  else if readU32BE data 12 ≠ readU32BE data 8 + 1024 then false
  else if data.length ≤ readU32BE data 12 then false
  else
    let _u := unpackCacheData data (readU32BE data 8)
    true

/-- `HuffDicDecompressor::AddCdicData`: unconditionally rejects the record. -/
def addCdicData (_cdicData : List Nat) : Bool := false

/-!  ## Extra-data flag decoding (`ParseHeader`, `hasExtraFlags` block) -/

/-- The `while (flags > 1)` loop counting set bits at positions `≥ 1`.
`fuel` bounds the iterations; `flags` is a `uint16_t`, so 16 halvings always
reach the exit condition. -/
def countTrailersFuel : Nat → Nat → Nat
  | 0, _ => 0
  | fuel + 1, flags =>
    if 1 < flags then (if flags &&& 2 ≠ 0 then 1 else 0) + countTrailersFuel fuel (flags >>> 1)
    else 0

/-- Trailer count decoded from the 16-bit `extraDataFlags` bitfield. -/
def countTrailers (flags : Nat) : Nat := countTrailersFuel 16 flags

/-- The extra-data flag decoding of `ParseHeader`: performed only when the
extended header's declared length is at least 228 bytes (`hasExtraFlags`);
otherwise the constructor defaults `multibyte = false, trailersCount = 0`
stand. -/
def extraShape (hdrLen flags : Nat) : Bool × Nat :=
  if 228 ≤ hdrLen then (decide (flags &&& 1 ≠ 0), countTrailers flags) else (false, 0)

/-- Specification-side bit count (with structural fuel): the number of set
bits of `n`, i.e. `n % 2 + popCnt (n / 2)` for `n > 0`. -/
def popCntFuel : Nat → Nat → Nat
  | 0, _ => 0
  | fuel + 1, n => if n = 0 then 0 else n % 2 + popCntFuel fuel (n / 2)

/-- Number of set bits of `n`. -/
def popCnt (n : Nat) : Nat := popCntFuel n n

/-!  ## Document header parser (`MobiParse::ParseHeader`, record-0 part) -/

/-- One label per distinct failure site of the parsing pipeline; the C code
returns a bare `false` everywhere, and the spec's error taxonomy names the
corresponding kinds. -/
inductive ParseErr where
  | ReadFailure
  | UnsupportedCompression
  | EncryptionUnsupported
  | InvalidExtendedHeader
  | HeaderTooLarge
  | MalformedHuffmanHeader
  | CdicRejected
deriving DecidableEq

/-- The fields of `MobiParse` set by the record-0 part of `ParseHeader`. -/
structure Hdr where
  compressionType : Int
  docUncompressedSize : Int
  docRecCount : Int
  multibyte : Bool
  trailersCount : Nat
deriving DecidableEq

/-- The `for (size_t i = 1; i < huffmanRecCount; i++)` loop feeding CDIC
records to the decompressor; `remaining = huffmanRecCount - 1` in `size_t`
arithmetic.  Every iteration either fails to read its record or has
`AddCdicData` reject it. -/
def cdicLoop (pdb : PdbFile) (huffFirst : Nat) : Nat → Nat → Except ParseErr Unit
  | _, 0 => Except.ok ()
  | i, remaining + 1 =>
    match readRecord pdb (huffFirst + i) with
    | none => Except.error ParseErr.ReadFailure
    | some cd =>
      if addCdicData cd = false then Except.error ParseErr.CdicRejected
      else cdicLoop pdb huffFirst (i + 1) remaining

/-- The record-0 part of `MobiParse::ParseHeader`.  `recLeft` is `size_t`
(so a record 0 shorter than the 16-byte PalmDoc header wraps around, after
which the `MOBI` tag check fails on the modelled garbage bytes).  The
`mobi.encrType` field (bytes 12–13) is compared against `ENCRYPTION_NONE`
without a byte swap: nonzero in either order means nonzero bytes.  Extended
header fields live at record offsets `16 + field offset`: `hdrLen` at 20,
`huffmanFirstRec` at 112, `huffmanRecCount` at 116, `extraDataFlags` at 242. -/
def parseRecord0 (isMobi : Bool) (pdb : PdbFile) : Except ParseErr Hdr :=
  match readRecord pdb 0 with
  | none => Except.error ParseErr.ReadFailure
  | some rec0 =>
    let compr := readI16BE rec0 0
    let docSize := readI32BE rec0 4
    let recCount := readI16BE rec0 8
    let recLeft := szSub64 rec0.length 16
    if ¬(compr = 1 ∨ compr = 2 ∨ compr = 17480) then
      Except.error ParseErr.UnsupportedCompression
    else if isMobi = true ∧ (rec0.getD 12 0 ≠ 0 ∨ rec0.getD 13 0 ≠ 0) then
      Except.error ParseErr.EncryptionUnsupported
    else if recLeft = 0 then Except.ok ⟨compr, docSize, recCount, false, 0⟩
    else if recLeft < 8 then Except.error ParseErr.InvalidExtendedHeader
    else if ¬(rec0.getD 16 0 = 77 ∧ rec0.getD 17 0 = 79 ∧ rec0.getD 18 0 = 66 ∧
        rec0.getD 19 0 = 73) then Except.error ParseErr.InvalidExtendedHeader
    else
      let hdrLen := readU32BE rec0 20
      if recLeft < hdrLen then Except.error ParseErr.HeaderTooLarge
      else
        let flags := rec0.getD 242 0 * 256 + rec0.getD 243 0
        let shape := extraShape hdrLen flags
        if compr = 17480 then
          let huffFirst := readU32BE rec0 112
          let huffCount := readU32BE rec0 116
          match readRecord pdb huffFirst with
          | none => Except.error ParseErr.ReadFailure
          | some hd =>
            if setHuffData hd = false then Except.error ParseErr.MalformedHuffmanHeader
            else
              match cdicLoop pdb huffFirst 1 (huffCount - 1) with
              | Except.error e => Except.error e
              | Except.ok _ => Except.ok ⟨compr, docSize, recCount, shape.1, shape.2⟩
        else Except.ok ⟨compr, docSize, recCount, shape.1, shape.2⟩

/-!  ## Document assembler (`LoadDocRecordIntoBuffer`, `LoadDocument`) -/

/-- The `MobiParse` fields the assembler reads. -/
structure MobiState where
  pdb : PdbFile
  compressionType : Int
  docRecCount : Nat
  docUncompressedSize : Int
  multibyte : Bool
  trailersCount : Nat
deriving DecidableEq

/-- `MobiParse::LoadDocRecordIntoBuffer`: read the record, strip trailing
data (`recSize -= extraSize` in `size_t` arithmetic), then dispatch on the
compression type; the `COMPRESSION_HUFF` branch is unimplemented and fails,
as does the `assert(0)` default. -/
def loadDocRecordIntoBuffer (st : MobiState) (recNo : Nat) : Option (List Nat) :=
  match readRecord st.pdb recNo with
  | none => none
  | some recData =>
    let extraSize := extraDataSize recData recData.length st.trailersCount st.multibyte
    let recSize := szSub64 recData.length extraSize
    if st.compressionType = 1 then some (recData.take recSize)
    else if st.compressionType = 2 then
      match palmdocUncompress (recData.take recSize) 6000 with
      | none => none
      | some out => some out
    else none

/-- The `for (size_t i = 1; i <= docRecCount; i++)` loop of `LoadDocument`,
accumulating decompressed records in index order. -/
def loadRecords (st : MobiState) : Nat → Nat → List Nat → Option (List Nat)
  | _, 0, acc => some acc
  | i, remaining + 1, acc =>
    match loadDocRecordIntoBuffer st i with
    | none => none
    | some bytes => loadRecords st (i + 1) remaining (acc ++ bytes)

/-- `MobiParse::LoadDocument`: loads records `1 .. docRecCount` and returns
the concatenation.  The final size comparison against `docUncompressedSize`
is only an `assert` in the source, so it does not influence the result. -/
def loadDocument (st : MobiState) : Option (List Nat) :=
  loadRecords st 1 st.docRecCount []

/-!  ## Concrete inputs used by the theorems below -/

/-- A Huffman dictionary record whose 24-byte sub-header passes every check
of `SetHuffData` (`HUFF` tag, `hdrLen = 24`, `cacheOffset = 24`,
`baseTableOffset = 1048 = 24 + 1024 < 1049`) but whose 256 cache entries are
all zero, i.e. every entry has code length 0. -/
def huffRecZeroCache : List Nat :=
  [72, 85, 70, 70, 0, 0, 0, 24, 0, 0, 0, 24, 0, 0, 4, 24] ++ List.replicate 1033 0

/-- A 248-byte record 0: PalmDoc header with `compressionType = 17480`
(`COMPRESSION_HUFF`, bytes `68 72`), zero sizes and counts, followed by a
full 232-byte extended header: `MOBI` tag, `hdrLen = 232`,
`huffmanFirstRec = 1` (offset 112), `huffmanRecCount = 1` (offset 116) and
`extraDataFlags = 0` (offset 242). -/
def rec0Huff : List Nat :=
  [68, 72, 0, 0, 0, 0, 0, 0, 0, 0, 0, 0, 0, 0, 0, 0] ++
    [77, 79, 66, 73] ++ [0, 0, 0, 232] ++ List.replicate 88 0 ++
    [0, 0, 0, 1] ++ [0, 0, 0, 1] ++ List.replicate 128 0

/-- A two-record container holding `rec0Huff` and `huffRecZeroCache`. -/
def pdbHuff : PdbFile :=
  { source := rec0Huff ++ huffRecZeroCache, offsets := [0, 248, 1297], junk := 0 }

/-- Assembler state for a HuffmanDict document with one text record. -/
def stHuff : MobiState :=
  { pdb := { source := [], offsets := [], junk := 0 }, compressionType := 17480,
    docRecCount := 1, docUncompressedSize := 1, multibyte := false, trailersCount := 0 }

/-- Assembler state whose header declares `uncompressedDocSize = 5` while its
single text record (record 1, compression `None`, no trailers) holds only 4
bytes. -/
def stShort : MobiState :=
  { pdb := { source := [9, 9, 9, 9], offsets := [0, 0, 4], junk := 0 }, compressionType := 1,
    docRecCount := 1, docUncompressedSize := 5, multibyte := false, trailersCount := 0 }

/-- A 16-byte record 0 of a MOBI-variant document: `compressionType = 2`
(PalmDocLZ), `uncompressedDocSize = 4`, `recordsCount = 1`, and encryption
type `Old` (big-endian `1` in bytes 12–13). -/
def rec0Encrypted : List Nat :=
  [0, 2, 0, 0, 0, 0, 0, 4, 0, 1, 0, 0, 0, 1, 0, 0]

/-- A container whose record 0 is `rec0Encrypted`. -/
def pdbEncrypted : PdbFile :=
  { source := rec0Encrypted, offsets := [0, 16], junk := 0 }

/-- C1: the claim fails on the code.  For the PalmDoc input
`[97, 97, 128, 8]` (two literals, then a back-reference with distance 1 and
copy-length 3) and output bound `maxOutputLen = 3`, the back-reference step
would write past the bound, but the decoder does not fail with
`OutputBufferTooSmall` (the branch has no `dstLeft >= n` check, only an
`assert`): it writes past the buffer and reports length 5 > 3. -/
theorem palmdocUncompress_backref_overflows :
    palmdocUncompress [97, 97, 128, 8] 3 = some [97, 97, 97, 97, 97] ∧
    3 < [97, 97, 97, 97, 97].length := by
  decide

/-- C2: the claim fails on the code.  With a header declaring
`uncompressedDocSize = 5` and a single record that decompresses to 4 bytes,
`LoadDocument` succeeds and returns the 4-byte document: the size comparison
is only an `assert`, never a `SizeMismatch` failure. -/
theorem loadDocument_no_size_check :
    loadDocument stShort = some [9, 9, 9, 9] ∧
    stShort.docUncompressedSize = 5 ∧ ([9, 9, 9, 9] : List Nat).length = 4 := by
  decide

/-- C5: the claim fails on the code.  For a 5-byte record whose single
trailer decodes to length 6 > 5, the shrink is performed in `size_t`
arithmetic (`newLen` wraps to `2^64 - 1`; the guard is only an `assert`), so
`ExtraDataSize` returns the over-large trailing size 6 for a 5-byte record
instead of failing with `CorruptTrailingData`. -/
theorem extraDataSize_wraps :
    extraDataSize [0, 0, 0, 0, 6] 5 1 false = 6 ∧ 5 < 6 := by
  decide

set_option maxRecDepth 8000 in
/-- C7: the claim fails on the code for its cache-validation half.
`huffRecZeroCache` passes every sub-header check but all 256 of its cache
entries have code length zero, which `UnpackCacheData` detects (it returns
`false`) — yet `SetHuffData` ignores that result and reports success instead
of failing with `MalformedHuffmanHeader`. -/
theorem setHuffData_ignores_cache_check :
    setHuffData huffRecZeroCache = true ∧
    unpackCacheData huffRecZeroCache 24 = false := by
  decide

theorem szSub64_of_le (a b : Nat) (hba : b ≤ a) (ha : a < 2 ^ 64) : szSub64 a b = a - b := by
  unfold szSub64
  rw [Int.emod_eq_of_lt (by omega) (by omega)]
  omega

theorem copyFwd_stable (back : Nat) :
    ∀ (n : Nat) (buf : List Nat) (i : Nat), i < buf.length →
      (copyFwd buf back n).getD i 0 = buf.getD i 0 := by
  intro n
  induction n with
  | zero => intro buf i _; rfl
  | succ n ih =>
    intro buf i h
    rw [copyFwd, ih _ _ (by simp; omega), List.getD_append _ _ _ _ h]

theorem copyFwd_overlap (back : Nat) (hb : 1 ≤ back) :
    ∀ (n : Nat) (buf : List Nat) (k : Nat), back ≤ buf.length → k < n →
      (copyFwd buf back n).getD (buf.length + k) 0 =
        (copyFwd buf back n).getD (buf.length + k - back) 0 := by
  intro n
  induction n with
  | zero => intro buf k _ hk; omega
  | succ n ih =>
    intro buf k hback hk
    rw [copyFwd]
    cases k with
    | zero =>
      have hlt : buf.length < (buf ++ [buf.getD (buf.length - back) 0]).length := by
        simp
      have hlt2 : buf.length - back < buf.length := by omega
      rw [Nat.add_zero,
        copyFwd_stable back n _ _ hlt,
        copyFwd_stable back n _ _ (by simp; omega),
        List.getD_append _ _ _ _ hlt2,
        List.getD_append_right _ _ _ _ (Nat.le_refl _)]
      simp
    | succ j =>
      have h1 := ih (buf ++ [buf.getD (buf.length - back) 0]) j (by simp; omega) (by omega)
      have e1 : (buf ++ [buf.getD (buf.length - back) 0]).length + j = buf.length + (j + 1) := by
        simp; omega
      rw [e1] at h1
      exact h1

/-- C3: in PalmDoc decompression, a step whose leading byte `c` satisfies
`128 ≤ c < 192` combines `c` with the next input byte into
`v = (c <<< 8) ||| b`, takes back-distance `(v >>> 3) &&& 0x7ff` and
copy-length `(v &&& 7) + 3`, and performs the copy one byte at a time in
forward order starting at output position `currentOutputPos - backDistance`
(`copyFwd`); consequently, for an overlapping range (`back ≤` the output
length), every copied byte equals the byte `back` positions earlier in the
final output — the copy re-reads bytes it just wrote and reproduces the
repeated pattern. -/
theorem palmLoop_backref_step (fuel c b : Nat) (rest out : List Nat) (dstLen : Nat)
    (h1 : 128 ≤ c) (h2 : c < 192) (h3 : out.length < dstLen) (h4 : dstLen < 2 ^ 64) :
    palmLoop (fuel + 1) (c :: b :: rest) out dstLen =
      palmLoop fuel rest
        (copyFwd out ((((c <<< 8) ||| b) >>> 3) &&& 2047) ((((c <<< 8) ||| b) &&& 7) + 3))
        dstLen ∧
    ∀ (buf : List Nat) (back n k : Nat), 1 ≤ back → back ≤ buf.length → k < n →
      (copyFwd buf back n).getD (buf.length + k) 0 =
        (copyFwd buf back n).getD (buf.length + k - back) 0 := by
  constructor
  · have hz : ¬ szSub64 dstLen out.length = 0 := by
      rw [szSub64_of_le dstLen out.length (Nat.le_of_lt h3) h4]; omega
    rw [palmLoop]
    simp only [if_neg hz, if_neg (by omega : ¬ (1 ≤ c ∧ c ≤ 8)),
      if_neg (by omega : ¬ c < 128), if_neg (by omega : ¬ 192 ≤ c)]
  · intro buf back n k hb hback hk
    exact copyFwd_overlap back hb n buf k hback hk

/-- C3 witness: a concrete back-reference step (`c = 128`, `b = 8`, i.e.
distance 1, length 3) over the one-byte output `[97]`. -/
theorem palmLoop_backref_step_witness :
    palmLoop 1 [128, 8] [97] 10 =
      palmLoop 0 []
        (copyFwd [97] ((((128 <<< 8) ||| 8) >>> 3) &&& 2047) ((((128 <<< 8) ||| 8) &&& 7) + 3))
        10 :=
  (palmLoop_backref_step 0 128 8 [] [97] 10 (by decide) (by decide) (by decide)
    (by decide)).1

theorem popCntFuel_congr :
    ∀ (f g n : Nat), n ≤ f → n ≤ g → popCntFuel f n = popCntFuel g n := by
  intro f
  induction f with
  | zero =>
    intro g n hf _
    cases g with
    | zero => rfl
    | succ g => simp [popCntFuel, Nat.le_zero.mp hf]
  | succ f ih =>
    intro g n hf hg
    cases n with
    | zero =>
      cases g with
      | zero => rfl
      | succ g => simp [popCntFuel]
    | succ m =>
      cases g with
      | zero => omega
      | succ g =>
        simp only [popCntFuel, if_neg (Nat.succ_ne_zero m)]
        rw [ih g ((m + 1) / 2) (by omega) (by omega)]

theorem popCnt_pos (n : Nat) (h : 0 < n) : popCnt n = n % 2 + popCnt (n / 2) := by
  unfold popCnt
  cases n with
  | zero => omega
  | succ m =>
    simp only [popCntFuel, if_neg (Nat.succ_ne_zero m)]
    rw [popCntFuel_congr m ((m + 1) / 2) ((m + 1) / 2) (by omega) (by omega)]

theorem and_two_ne_zero (n : Nat) : (decide (n &&& 2 ≠ 0)) = decide (n / 2 % 2 = 1) := by
  have h : n &&& 2 ^ 1 = (n.testBit 1).toNat * 2 ^ 1 := Nat.and_two_pow n 1
  have h2 : n.testBit 1 = decide (n / 2 % 2 = 1) := by
    rw [Nat.testBit_succ n 0, Nat.testBit_zero]
  rw [pow_one] at h
  rw [decide_eq_decide]
  cases hb : n.testBit 1
  · rw [hb] at h h2
    simp only [Bool.toNat_false, Nat.zero_mul] at h
    rw [h]
    constructor
    · intro hx
      exact absurd rfl hx
    · intro hx
      exact absurd hx (of_decide_eq_false h2.symm)
  · rw [hb] at h h2
    simp only [Bool.toNat_true, Nat.one_mul] at h
    rw [h]
    have hx : n / 2 % 2 = 1 := of_decide_eq_true h2.symm
    simp [hx]

theorem countTrailersFuel_eq :
    ∀ (fuel flags : Nat), flags < 2 ^ fuel →
      countTrailersFuel fuel flags = popCnt (flags / 2) := by
  intro fuel
  induction fuel with
  | zero =>
    intro flags h
    have : flags = 0 := by simpa using h
    subst this
    rfl
  | succ fuel ih =>
    intro flags h
    by_cases h1 : 1 < flags
    · have hpow : 2 ^ (fuel + 1) = 2 * 2 ^ fuel := by rw [pow_succ]; ring
      rw [countTrailersFuel, if_pos h1, Nat.shiftRight_one,
        ih (flags / 2) (by omega), popCnt_pos (flags / 2) (by omega)]
      have hbit : (if flags &&& 2 ≠ 0 then 1 else 0) = flags / 2 % 2 := by
        have := and_two_ne_zero flags
        by_cases hb : flags &&& 2 ≠ 0 <;> simp [hb] at this ⊢ <;> omega
      rw [hbit, Nat.div_div_eq_div_mul]
    · rw [countTrailersFuel, if_neg h1]
      have : flags / 2 = 0 := by omega
      rw [this]
      rfl

/-- C8: extra-data flag decoding happens only when the extended header's
declared length is at least 228; in that case `isMultibyte` holds iff bit 0
of the 16-bit flag bitfield is set and `trailerEntryCount` is the number of
set bits at bit positions 1 and above (`popCnt (flags / 2)`); for a declared
length below 228 the shape is "no trailers, not multibyte" (which is also
the constructor default used when no extended header is present at all). -/
theorem extraShape_decodes_flags (hdrLen flags : Nat) (hflags : flags < 65536) :
    extraShape hdrLen flags =
      if 228 ≤ hdrLen then (flags.testBit 0, popCnt (flags / 2)) else (false, 0) := by
  unfold extraShape countTrailers
  by_cases h : 228 ≤ hdrLen
  · rw [if_pos h, if_pos h,
      countTrailersFuel_eq 16 flags (by norm_num; omega)]
    have hm : (decide (flags &&& 1 ≠ 0)) = flags.testBit 0 := by
      rw [Nat.testBit_zero, Nat.and_one_is_mod, decide_eq_decide]
      omega
    rw [hm]
  · rw [if_neg h, if_neg h]

/-- C8 witness: flags `0b0110` (bits 1 and 2 set, bit 0 clear) under a
length-232 extended header decode to "not multibyte, two trailers". -/
theorem extraShape_decodes_flags_witness :
    extraShape 232 6 = if 228 ≤ 232 then ((6 : Nat).testBit 0, popCnt (6 / 2)) else (false, 0) :=
  extraShape_decodes_flags 232 6 (by decide)

/-- C4 counterexample: the claim, as stated, is false.  For the envelope
built by `openEnvelope` with record count 1 (offset table `[0, 4]` over a
4-byte source), reading record index `1 ≥ recordCount` does not fail with
`IndexOutOfRange`: `ReadRecord` has no bound check, reads the value past the
end of the offset table (modelled by `junk = 4`) and succeeds, returning an
empty record. -/
theorem readRecord_no_index_check :
    openEnvelope 1 [0] 4 = some [0, 4] ∧
    readRecord { source := [10, 11, 12, 13], offsets := [0, 4], junk := 4 } 1 = some [] := by
  decide

/-- C4 amended: `ReadRecord` computes the record size as
`offset[index+1] - offset[index]`, reads exactly that many bytes at
`offset[index]` when the range lies within the source, and fails (returns
`NULL`, the `TruncatedRead` kind) when fewer bytes are available than
requested; but it performs no bound check on the index, so for
`index ≥ recordCount` both offset-table accesses yield whatever lies past
the table (`junk`) instead of an `IndexOutOfRange` failure. -/
theorem readRecord_spec (source : List Nat) (offsets : List Int) (junk : Int) (i : Nat)
    (hoff : 0 ≤ offsets.getD i junk)
    (hsz : 0 ≤ getRecordSize { source := source, offsets := offsets, junk := junk } i) :
    ((offsets.getD i junk).toNat +
        (getRecordSize { source := source, offsets := offsets, junk := junk } i).toNat ≤
          source.length →
      readRecord { source := source, offsets := offsets, junk := junk } i =
        some ((source.drop (offsets.getD i junk).toNat).take
          (getRecordSize { source := source, offsets := offsets, junk := junk } i).toNat) ∧
      ((source.drop (offsets.getD i junk).toNat).take
          (getRecordSize { source := source, offsets := offsets, junk := junk } i).toNat).length =
        (getRecordSize { source := source, offsets := offsets, junk := junk } i).toNat) ∧
    (source.length <
        (offsets.getD i junk).toNat +
          (getRecordSize { source := source, offsets := offsets, junk := junk } i).toNat →
      readRecord { source := source, offsets := offsets, junk := junk } i = none) := by
  constructor
  · intro hin
    unfold readRecord
    rw [if_pos ⟨hoff, hsz, hin⟩]
    refine ⟨rfl, ?_⟩
    rw [List.length_take, List.length_drop]
    omega
  · intro hout
    unfold readRecord
    rw [if_neg]
    rintro ⟨-, -, hle⟩
    dsimp only at hle
    omega

/-- C4 witness: record 0 of a 3-byte source with offsets `[0, 2, 3]` reads
exactly the 2 bytes `[1, 2]`. -/
theorem readRecord_spec_witness :
    readRecord { source := [1, 2, 3], offsets := [0, 2, 3], junk := 0 } 0 = some [1, 2] :=
  ((readRecord_spec [1, 2, 3] [0, 2, 3] 0 0 (by decide) (by decide)).1 (by decide)).1

theorem validOffsets_iff :
    ∀ (l : List Int), validOffsets l = true ↔
      ∀ i, i + 1 < l.length → l.getD i 0 ≤ l.getD (i + 1) 0 := by
  intro l
  induction l with
  | nil =>
    simp only [validOffsets, List.length_nil]
    constructor
    · intro _ i hi
      omega
    · intro _
      trivial
  | cons a t ih =>
    cases t with
    | nil =>
      simp only [validOffsets, List.length_cons, List.length_nil]
      constructor
      · intro _ i hi
        omega
      · intro _
        trivial
    | cons b r =>
      rw [validOffsets]
      simp only [Bool.and_eq_true, decide_eq_true_eq, ih]
      constructor
      · rintro ⟨hab, htail⟩ i hi
        cases i with
        | zero => simpa using hab
        | succ j =>
          have hj : j + 1 < (b :: r).length := by
            simp only [List.length_cons] at hi ⊢
            omega
          simpa [List.getD_cons_succ] using htail j hj
      · intro hall
        constructor
        · simpa using hall 0 (by simp)
        · intro j hj
          have hj2 : (j + 1) + 1 < (a :: b :: r).length := by
            simp only [List.length_cons] at hj ⊢
            omega
          simpa [List.getD_cons_succ] using hall (j + 1) hj2

theorem asInt32_of_lt (n : Nat) (h : n < 2 ^ 31) : asInt32 n = (n : Int) := by
  unfold asInt32
  rw [Nat.mod_eq_of_lt (by omega)]
  rw [if_pos (by omega)]

/-- C6 counterexample: the claim, as stated, is false.  For a source of
total byte length `2^31` and a single raw offset `-2^31` (bytes
`80 00 00 00`), `open` succeeds — the sentinel is the `int32_t` truncation
of the file size, `-2^31`, which the signed comparison accepts — yet the
final sentinel entry does not equal the source's total byte length. -/
theorem openEnvelope_sentinel_wraps :
    openEnvelope 1 [-(2 ^ 31)] (2 ^ 31) = some [-(2 ^ 31), -(2 ^ 31)] ∧
    ((-(2 ^ 31) : Int) ≠ ((2 ^ 31 : Nat) : Int)) := by
  decide

/-- C6 amended: for every envelope that `open` returns successfully, the
record count is `≥ 1`, the offset table holds record count + 1 entries, the
final sentinel entry is the source's total byte length reduced to a signed
32-bit value — equal to the total byte length whenever that length is below
`2^31` — and `offset[i] ≤ offset[i+1]` for every `i`; `open` fails whenever
the record count is `< 1` or some offset exceeds its successor. -/
theorem openEnvelope_invariants :
    (∀ (numRecords : Int) (rawOffsets : List Int) (fileSize : Nat) (env : List Int),
      openEnvelope numRecords rawOffsets fileSize = some env →
        1 ≤ numRecords ∧ env.length = numRecords.toNat + 1 ∧
        env.getLast? = some (asInt32 fileSize) ∧
        (fileSize < 2 ^ 31 → env.getLast? = some ((fileSize : Nat) : Int)) ∧
        ∀ i, i + 1 < env.length → env.getD i 0 ≤ env.getD (i + 1) 0) ∧
    (∀ (numRecords : Int) (rawOffsets : List Int) (fileSize : Nat),
      numRecords < 1 → openEnvelope numRecords rawOffsets fileSize = none) ∧
    (∀ (numRecords : Int) (rawOffsets : List Int) (fileSize : Nat) (i : Nat),
      i + 1 < (rawOffsets ++ [asInt32 fileSize]).length →
      (rawOffsets ++ [asInt32 fileSize]).getD (i + 1) 0 <
        (rawOffsets ++ [asInt32 fileSize]).getD i 0 →
      openEnvelope numRecords rawOffsets fileSize = none) := by
  refine ⟨?_, ?_, ?_⟩
  · intro numRecords rawOffsets fileSize env h
    unfold openEnvelope at h
    by_cases h1 : numRecords < 1
    · rw [if_pos h1] at h
      exact absurd h (by simp)
    rw [if_neg h1] at h
    by_cases h2 : rawOffsets.length ≠ numRecords.toNat
    · rw [if_pos h2] at h
      exact absurd h (by simp)
    rw [if_neg h2] at h
    by_cases h3 : validOffsets (rawOffsets ++ [asInt32 fileSize]) = true
    case neg =>
      rw [if_neg h3] at h
      exact absurd h (by simp)
    case pos =>
      rw [if_pos h3] at h
      have henv : rawOffsets ++ [asInt32 fileSize] = env := Option.some.inj h
      subst henv
      refine ⟨by omega, ?_, ?_, ?_, ?_⟩
      · simp only [List.length_append, List.length_cons, List.length_nil]
        omega
      · exact List.getLast?_concat _
      · intro hfs
        rw [List.getLast?_concat _, asInt32_of_lt fileSize hfs]
      · exact (validOffsets_iff _).mp h3
  · intro numRecords rawOffsets fileSize h
    unfold openEnvelope
    rw [if_pos h]
  · intro numRecords rawOffsets fileSize i hi hlt
    unfold openEnvelope
    by_cases h1 : numRecords < 1
    · rw [if_pos h1]
    rw [if_neg h1]
    by_cases h2 : rawOffsets.length ≠ numRecords.toNat
    · rw [if_pos h2]
    rw [if_neg h2]
    have h3 : ¬ validOffsets (rawOffsets ++ [asInt32 fileSize]) = true := by
      intro h3
      have := (validOffsets_iff _).mp h3 i hi
      omega
    rw [if_neg h3]

/-- C6 witness: a one-record envelope over a 4-byte source; the sentinel is
the genuine total byte length. -/
theorem openEnvelope_invariants_witness :
    ([0, 4] : List Int).getLast? = some ((4 : Nat) : Int) :=
  (openEnvelope_invariants.1 1 [0] 4 [0, 4] (by decide)).2.2.2.1 (by decide)

/-- C9: for every MOBI-variant document whose PalmDoc header carries a
nonzero encryption-type value in bytes 12–13 (e.g. `Old = 1` or `New = 2`),
header parsing fails at the encryption check — regardless of which of the
three supported compression kinds the header declares and regardless of all
other record contents — so no partial decode is ever produced. -/
theorem parseRecord0_rejects_encryption (pdb : PdbFile) (rec0 : List Nat)
    (hrec : readRecord pdb 0 = some rec0)
    (hcompr : readI16BE rec0 0 = 1 ∨ readI16BE rec0 0 = 2 ∨ readI16BE rec0 0 = 17480)
    (hencr : rec0.getD 12 0 ≠ 0 ∨ rec0.getD 13 0 ≠ 0) :
    parseRecord0 true pdb = Except.error ParseErr.EncryptionUnsupported := by
  simp only [parseRecord0, hrec]
  rw [if_neg (not_not_intro hcompr), if_pos ⟨by trivial, hencr⟩]

/-- C9 witness: a MOBI header with PalmDocLZ compression and encryption
type `Old`. -/
theorem parseRecord0_rejects_encryption_witness :
    parseRecord0 true pdbEncrypted = Except.error ParseErr.EncryptionUnsupported :=
  parseRecord0_rejects_encryption pdbEncrypted rec0Encrypted (by decide)
    (Or.inr (Or.inl (by decide))) (Or.inr (by decide))

theorem szSub64_eq_zero (a b : Nat) (ha : a < 2 ^ 64) (hb : b < 2 ^ 64) :
    szSub64 a b = 0 → a = b := by
  unfold szSub64
  intro h
  omega

theorem cdicLoop_ok (pdb : PdbFile) (huffFirst : Nat) :
    ∀ (i r : Nat) (u : Unit), cdicLoop pdb huffFirst i r = Except.ok u → r = 0 := by
  intro i r u h
  cases r with
  | zero => rfl
  | succ r =>
    rw [cdicLoop] at h
    cases hr : readRecord pdb (huffFirst + i) with
    | none =>
      simp only [hr] at h
      exact Except.noConfusion h
    | some cd =>
      simp only [hr] at h
      rw [if_pos (show addCdicData cd = false from rfl)] at h
      exact Except.noConfusion h

theorem loadDocRecord_huff_none (st : MobiState) (recNo : Nat)
    (hc : st.compressionType = 17480) : loadDocRecordIntoBuffer st recNo = none := by
  simp only [loadDocRecordIntoBuffer]
  cases hr : readRecord st.pdb recNo with
  | none => rfl
  | some recData =>
    dsimp only
    rw [if_neg (by rw [hc]; decide), if_neg (by rw [hc]; decide)]

theorem parse_ok_huffCount (isMobi : Bool) (pdb : PdbFile) (h : Hdr) (rec0 : List Nat)
    (hok : parseRecord0 isMobi pdb = Except.ok h)
    (hrec : readRecord pdb 0 = some rec0)
    (hlen : rec0.length < 2 ^ 64)
    (hcompr : h.compressionType = 17480) :
    readU32BE rec0 116 ≤ 1 := by
  simp only [parseRecord0, hrec] at hok
  by_cases hc : ¬(readI16BE rec0 0 = 1 ∨ readI16BE rec0 0 = 2 ∨ readI16BE rec0 0 = 17480)
  · rw [if_pos hc] at hok
    exact Except.noConfusion hok
  rw [if_neg hc] at hok
  by_cases he : isMobi = true ∧ (rec0.getD 12 0 ≠ 0 ∨ rec0.getD 13 0 ≠ 0)
  · rw [if_pos he] at hok
    exact Except.noConfusion hok
  rw [if_neg he] at hok
  by_cases h0 : szSub64 rec0.length 16 = 0
  · have h16 : rec0.length = 16 := szSub64_eq_zero rec0.length 16 hlen (by norm_num) h0
    have e1 : rec0.getD 116 0 = 0 := List.getD_eq_default _ _ (by omega)
    have e2 : rec0.getD 117 0 = 0 := List.getD_eq_default _ _ (by omega)
    have e3 : rec0.getD 118 0 = 0 := List.getD_eq_default _ _ (by omega)
    have e4 : rec0.getD 119 0 = 0 := List.getD_eq_default _ _ (by omega)
    unfold readU32BE
    rw [e1, e2, e3, e4]
    norm_num
  rw [if_neg h0] at hok
  by_cases h8 : szSub64 rec0.length 16 < 8
  · rw [if_pos h8] at hok
    exact Except.noConfusion hok
  rw [if_neg h8] at hok
  by_cases hm : ¬(rec0.getD 16 0 = 77 ∧ rec0.getD 17 0 = 79 ∧ rec0.getD 18 0 = 66 ∧
      rec0.getD 19 0 = 73)
  · rw [if_pos hm] at hok
    exact Except.noConfusion hok
  rw [if_neg hm] at hok
  by_cases hh : szSub64 rec0.length 16 < readU32BE rec0 20
  · rw [if_pos hh] at hok
    exact Except.noConfusion hok
  rw [if_neg hh] at hok
  by_cases hhuff : readI16BE rec0 0 = 17480
  case neg =>
    rw [if_neg hhuff] at hok
    exact absurd (by rw [← Except.ok.inj hok] at hcompr; exact hcompr) hhuff
  case pos =>
    rw [if_pos hhuff] at hok
    cases hr2 : readRecord pdb (readU32BE rec0 112) with
    | none =>
      simp only [hr2] at hok
      exact Except.noConfusion hok
    | some hd =>
      simp only [hr2] at hok
      by_cases hs : setHuffData hd = false
      · rw [if_pos hs] at hok
        exact Except.noConfusion hok
      rw [if_neg hs] at hok
      cases hcd : cdicLoop pdb (readU32BE rec0 112) 1 (readU32BE rec0 116 - 1) with
      | error e =>
        simp only [hcd] at hok
        exact Except.noConfusion hok
      | ok u =>
        have hz := cdicLoop_ok pdb (readU32BE rec0 112) 1 (readU32BE rec0 116 - 1) u hcd
        omega

/-- C10: the decode pipeline never produces Huffman-decompressed output.
`AddCdicData` unconditionally rejects every CDIC record, so header parsing
can only succeed under HuffmanDict compression when the extended header
declares at most one huffman dictionary record (with two or more, the
CDIC-feeding loop runs and always fails); and `LoadDocRecordIntoBuffer`
unconditionally fails for every text record under HuffmanDict compression,
so a HuffmanDict document with at least one text record is never decoded
successfully. -/
theorem huffman_never_decodes :
    (∀ cd : List Nat, addCdicData cd = false) ∧
    (∀ (isMobi : Bool) (pdb : PdbFile) (h : Hdr) (rec0 : List Nat),
      parseRecord0 isMobi pdb = Except.ok h → readRecord pdb 0 = some rec0 →
      rec0.length < 2 ^ 64 → h.compressionType = 17480 → readU32BE rec0 116 ≤ 1) ∧
    (∀ (st : MobiState) (recNo : Nat), st.compressionType = 17480 →
      loadDocRecordIntoBuffer st recNo = none) ∧
    (∀ st : MobiState, st.compressionType = 17480 → 1 ≤ st.docRecCount →
      loadDocument st = none) := by
  refine ⟨fun _ => rfl, parse_ok_huffCount, loadDocRecord_huff_none, ?_⟩
  intro st hc hrec
  obtain ⟨k, hk⟩ : ∃ k, st.docRecCount = k + 1 := ⟨st.docRecCount - 1, by omega⟩
  simp only [loadDocument, hk, loadRecords, loadDocRecord_huff_none st 1 hc]

set_option maxRecDepth 20000 in
/-- C10 witness: `pdbHuff` parses successfully under HuffmanDict compression
with exactly one declared huffman record, and the one-text-record HuffmanDict
document `stHuff` fails to load. -/
theorem huffman_never_decodes_witness :
    readU32BE rec0Huff 116 ≤ 1 ∧ loadDocument stHuff = none :=
  ⟨huffman_never_decodes.2.1 false pdbHuff ⟨17480, 0, 0, false, 0⟩ rec0Huff rfl (by decide)
      (by decide) rfl,
    huffman_never_decodes.2.2.2 stHuff rfl (by decide)⟩
